import Mathlib

/- Verification development for the retrieval-augmented conversation pipeline
   of `rag_lcel.py`: per-tenant vector storage, sliding-window conversation
   memory, chat-turn state updates, streaming token delivery, document
   chunking, and prompt assembly. -/

namespace RagLcel

/-- Number of documents retrieved from the vector store per question
(source: `top_k_vectorstore = 4`). -/
def top_k_vectorstore : Nat := 4

/-- Size of the conversation-memory window (source: `top_k_memory = 3`). -/
def top_k_memory : Nat := 3

/-- Per-tenant table name, from `load_vectorstore` and `drop_vector_data` in
the source: `table_name=f"vector_context_{username}"`. -/
def tableName (username : String) : String := "vector_context_" ++ username

/-- Modelled from the spec: the backing vector database (§6) holds a
per-tenant table/namespace of chunk texts; the Cassandra client itself is
not part of the repository.  State is the map from table name to the list
of chunk texts stored in that table. -/
structure VectorStore where
  tables : String → List String

/-- A store with every table empty (a tenant's table is created lazily by
its first write, per §3 TenantCollection lifecycle). -/
def emptyStore : VectorStore := ⟨fun _ => []⟩

/-- Modelled from the spec: `vectorstore.add_documents` appends the given
chunk texts under the writing tenant's table (§4.3 upsert); only the table
keyed by the tenant's username is touched. -/
def addDocuments (username : String) (docs : List String) (s : VectorStore) : VectorStore :=
  ⟨fun t => if t = tableName username then s.tables t ++ docs else s.tables t⟩

/-- Modelled from the spec: `vectorstore.clear()` / dropping the tenant's
table removes every chunk stored under that tenant's table and nothing
else (§4.3 clear). -/
def clearStore (username : String) (s : VectorStore) : VectorStore :=
  ⟨fun t => if t = tableName username then [] else s.tables t⟩

/-- Source `drop_vector_data(username)`: drops the table
`vector_preview.vector_context_{username}`, i.e. empties that tenant's
table. -/
def drop_vector_data (username : String) (s : VectorStore) : VectorStore :=
  clearStore username s

/-- Modelled from the spec: similarity search (§4.3) ranks the chunks of
the requesting tenant's table by descending score against the query and
returns at most `k` of them.  The scoring function stands for embedding
similarity. -/
def similaritySearch (score : String → String → Nat) (s : VectorStore)
    (username : String) (query : String) (k : Nat) : List String :=
  (((s.tables (tableName username)).mergeSort
    (fun a b => decide (score query b ≤ score query a))).take k)

/-- The write-path operations a tenant can perform against the store. -/
inductive StoreOp where
  | add (username : String) (docs : List String)
  | clear (username : String)

/-- Apply one store operation. -/
def applyOp (s : VectorStore) : StoreOp → VectorStore
  | .add u docs => addDocuments u docs s
  | .clear u => clearStore u s

/-- Run a trace of store operations from a starting state. -/
def runOps (s : VectorStore) (ops : List StoreOp) : VectorStore :=
  ops.foldl applyOp s

/-- All chunk texts written under a given tenant during a trace. -/
def addedUnder (username : String) : List StoreOp → List String
  | [] => []
  | .add u docs :: rest =>
      if u = username then docs ++ addedUnder username rest else addedUnder username rest
  | .clear _ :: rest => addedUnder username rest

/-- Distinct usernames are mapped to distinct table names, because the
table name is the fixed prefix `vector_context_` followed by the
username. -/
theorem tableName_injective {a b : String} (h : tableName a = tableName b) : a = b := by
  have hd := congrArg String.data h
  simp only [tableName, String.data_append] at hd
  exact String.ext (List.append_cancel_left hd)

/-- Every chunk present in a tenant's table after a trace was either there
initially or was written under that tenant during the trace. -/
theorem runOps_tables_subset (ops : List StoreOp) (u : String) :
    ∀ s : VectorStore, ∀ c : String, c ∈ (runOps s ops).tables (tableName u) →
      c ∈ s.tables (tableName u) ∨ c ∈ addedUnder u ops := by
  induction ops with
  | nil => intro s c hc; exact Or.inl hc
  | cons op rest ih =>
    intro s c hc
    have hstep : runOps s (op :: rest) = runOps (applyOp s op) rest := rfl
    rw [hstep] at hc
    rcases ih (applyOp s op) c hc with h | h
    · cases op with
      | add v docs =>
        by_cases hv : v = u
        · subst hv
          simp only [applyOp, addDocuments, if_pos rfl] at h
          rcases List.mem_append.mp h with h | h
          · exact Or.inl h
          · exact Or.inr (by simp [addedUnder, List.mem_append, h])
        · have hne : tableName u ≠ tableName v := fun hEq => hv (tableName_injective hEq).symm
          simp only [applyOp, addDocuments, if_neg hne] at h
          exact Or.inl h
      | clear v =>
        by_cases hv : v = u
        · subst hv
          simp only [applyOp, clearStore, if_pos rfl] at h
          exact absurd h (List.not_mem_nil c)
        · have hne : tableName u ≠ tableName v := fun hEq => hv (tableName_injective hEq).symm
          simp only [applyOp, clearStore, if_neg hne] at h
          exact Or.inl h
    · cases op with
      | add v docs =>
        by_cases hv : v = u
        · subst hv
          exact Or.inr (by simp [addedUnder, List.mem_append, h])
        · exact Or.inr (by simp [addedUnder, if_neg hv, h])
      | clear v => exact Or.inr (by simp [addedUnder, h])

/-- C1: per-tenant isolation of the vector store.  For tenants A ≠ B, a
similarity search against A's table (keyed on A's username) never returns
a chunk that was written only under B's table during the trace: anything
returned for A must have been written under A. -/
theorem C1_tenant_isolation (score : String → String → Nat) (ops : List StoreOp)
    (A B : String) (query : String) (k : Nat) (c : String)
    (hAB : A ≠ B) (hB : c ∈ addedUnder B ops) (hA : c ∉ addedUnder A ops) :
    c ∉ similaritySearch score (runOps emptyStore ops) A query k := by
  intro hmem
  have h1 : c ∈ (runOps emptyStore ops).tables (tableName A) := by
    have h2 := List.mem_of_mem_take hmem
    exact ((List.mergeSort_perm _ _).mem_iff).mp h2
  rcases runOps_tables_subset ops A emptyStore c h1 with h | h
  · exact absurd h (List.not_mem_nil c)
  · exact hA h

/-- Witness for C1 at a concrete trace: only tenant `bob` writes the chunk
`doc`; a search by tenant `alice` never returns it. -/
theorem C1_tenant_isolation_witness :
    ("alice" ≠ "bob" ∧ "doc" ∈ addedUnder "bob" [StoreOp.add "bob" ["doc"]] ∧
      "doc" ∉ addedUnder "alice" [StoreOp.add "bob" ["doc"]]) ∧
    "doc" ∉ similaritySearch (fun _ _ => 0) (runOps emptyStore [StoreOp.add "bob" ["doc"]])
      "alice" "hello" 4 :=
  ⟨⟨by decide, by decide, by decide⟩,
    C1_tenant_isolation (fun _ _ => 0) [StoreOp.add "bob" ["doc"]] "alice" "bob" "hello" 4 "doc"
      (by decide) (by decide) (by decide)⟩

/-- C6: clearing a tenant's data and then immediately searching for that
tenant returns the empty sequence, whatever was stored before; the clear
leaves the tenant's table empty. -/
theorem C6_clear_then_search_empty (score : String → String → Nat) (s : VectorStore)
    (u query : String) (k : Nat) :
    similaritySearch score (clearStore u s) u query k = [] ∧
    (clearStore u s).tables (tableName u) = [] := by
  constructor
  · simp [similaritySearch, clearStore]
  · simp [clearStore]

/-- One question/answer turn of the conversation (§3 MemoryTurn). -/
structure MemTurn where
  question : String
  answer : String
deriving DecidableEq

/-- Modelled from the spec: the session's `ConversationBufferWindowMemory`
(§4.4), whose class body is not part of the repository.  A size-bounded
FIFO window of the most recent `k` turns; `k` is fixed at construction. -/
structure WindowMemory where
  k : Nat
  buffer : List MemTurn
deriving DecidableEq

/-- The memory the session starts with (source lines 208-213): empty
buffer, window size `k = top_k_memory = 3` fixed at construction. -/
def emptyMemory : WindowMemory := ⟨top_k_memory, []⟩

/-- Modelled from the spec: `append(turn)` (§4.4) — if the buffer already
holds `k` turns, the oldest is evicted before the new turn is kept, so the
result is the last `k` of `buffer ++ [t]`. -/
def memAppend (t : MemTurn) (m : WindowMemory) : WindowMemory :=
  ⟨m.k, (m.buffer ++ [t]).drop ((m.buffer ++ [t]).length - m.k)⟩

/-- Modelled from the spec: `snapshot()` (§4.4), the ordered oldest-to-newest
read-only view of the window used for prompt assembly. -/
def snapshot (m : WindowMemory) : List MemTurn := m.buffer

/-- Source line 198: `st.session_state.memory.clear()`. -/
def memClear (m : WindowMemory) : WindowMemory := ⟨m.k, []⟩

/-- Append a sequence of turns in order, as successive completed turns do. -/
def appendAll : List MemTurn → WindowMemory → WindowMemory
  | [], m => m
  | t :: ts, m => appendAll ts (memAppend t m)

/-- Appending never changes the window size fixed at construction. -/
theorem memAppend_k (t : MemTurn) (m : WindowMemory) : (memAppend t m).k = m.k := rfl

/-- After an append the buffer holds at most `k` turns. -/
theorem memAppend_length_le (t : MemTurn) (m : WindowMemory) :
    (memAppend t m).buffer.length ≤ m.k := by
  simp only [memAppend, List.length_drop]
  omega

/-- The window size is unchanged by any sequence of appends. -/
theorem appendAll_k (ts : List MemTurn) : ∀ m : WindowMemory, (appendAll ts m).k = m.k := by
  induction ts with
  | nil => intro m; rfl
  | cons t rest ih =>
    intro m
    calc (appendAll (t :: rest) m).k = (appendAll rest (memAppend t m)).k := rfl
    _ = (memAppend t m).k := ih (memAppend t m)
    _ = m.k := memAppend_k t m

/-- Any sequence of appends keeps the buffer within the window size. -/
theorem appendAll_length_le (ts : List MemTurn) :
    ∀ m : WindowMemory, m.buffer.length ≤ m.k →
      (appendAll ts m).buffer.length ≤ m.k := by
  induction ts with
  | nil => intro m h; exact h
  | cons t rest ih =>
    intro m h
    have h2 : (memAppend t m).buffer.length ≤ (memAppend t m).k := by
      rw [memAppend_k]; exact memAppend_length_le t m
    have h3 := ih (memAppend t m) h2
    rwa [memAppend_k] at h3

/-- C2: the conversation memory is a size-bounded FIFO sliding window with
capacity `k = 3` fixed at construction: after any sequence of appended
turns the window size is still 3, the snapshot holds at most 3 turns, and
after appending exactly 4 turns the snapshot is exactly the last 3 in
order (the oldest evicted first). -/
theorem C2_memory_window (ts : List MemTurn) :
    (appendAll ts emptyMemory).k = top_k_memory ∧
    (snapshot (appendAll ts emptyMemory)).length ≤ top_k_memory ∧
    (ts.length = top_k_memory + 1 → snapshot (appendAll ts emptyMemory) = ts.tail) := by
  refine ⟨appendAll_k ts emptyMemory, ?_, ?_⟩
  · exact appendAll_length_le ts emptyMemory (by simp [emptyMemory])
  · intro h
    cases ts with
    | nil => simp [top_k_memory] at h
    | cons a ts =>
      cases ts with
      | nil => simp [top_k_memory] at h
      | cons b ts =>
        cases ts with
        | nil => simp [top_k_memory] at h
        | cons c ts =>
          cases ts with
          | nil => simp [top_k_memory] at h
          | cons d ts =>
            cases ts with
            | nil => rfl
            | cons e ts => simp [top_k_memory] at h

/-- Witness for C2 at four concrete turns: the first is evicted and the
snapshot is exactly the last three in order. -/
theorem C2_memory_window_witness :
    ([⟨"q1", "a1"⟩, ⟨"q2", "a2"⟩, ⟨"q3", "a3"⟩, ⟨"q4", "a4"⟩] : List MemTurn).length =
      top_k_memory + 1 ∧
    snapshot (appendAll [⟨"q1", "a1"⟩, ⟨"q2", "a2"⟩, ⟨"q3", "a3"⟩, ⟨"q4", "a4"⟩] emptyMemory) =
      [⟨"q2", "a2"⟩, ⟨"q3", "a3"⟩, ⟨"q4", "a4"⟩] :=
  ⟨by decide,
    (C2_memory_window [⟨"q1", "a1"⟩, ⟨"q2", "a2"⟩, ⟨"q3", "a3"⟩, ⟨"q4", "a4"⟩]).2.2 (by decide)⟩

/-- A transcript message (§3 ConversationTranscript), as appended to
`st.session_state.messages`. -/
inductive Msg where
  | human (content : String)
  | ai (content : String)
deriving DecidableEq

/-- The per-session state mutated by a question turn: the unbounded display
transcript `st.session_state.messages` and the window memory
`st.session_state.memory`. -/
structure ChatState where
  messages : List Msg
  memory : WindowMemory
deriving DecidableEq

/-- The state of the `StreamHandler` callback: the accumulated text and the
sequence of strings rendered to the response placeholder so far. -/
structure StreamState where
  text : String
  displays : List String
deriving DecidableEq

/-- The cursor glyph the handler appends when rendering a partial answer
(source line 39: `self.container.markdown(self.text + '▌')`). -/
def cursor : String := "▌"

/-- Source `StreamHandler.on_llm_new_token`: `self.text += token` and then
the placeholder renders `self.text + '▌'`. -/
def onLlmNewToken (st : StreamState) (tok : String) : StreamState :=
  ⟨st.text ++ tok, st.displays ++ [st.text ++ tok ++ cursor]⟩

/-- Feed a sequence of streamed tokens to the handler in order. -/
def runStreamFrom : StreamState → List String → StreamState
  | st, [] => st
  | st, tok :: rest => runStreamFrom (onLlmNewToken st tok) rest

/-- The handler state after one turn's token stream, starting from the
fresh handler (`initial_text=''`, nothing rendered yet). -/
def runStream (tokens : List String) : StreamState := runStreamFrom ⟨"", []⟩ tokens

/-- Concatenation of a list of strings, in order. -/
def joinTokens (l : List String) : String := l.foldl (fun a b => a ++ b) ""

/-- One question turn over the session state (source lines 224-293), in
source order: the question is appended to the transcript as a human
message, then the chain is invoked; on success the streamed tokens drive
the handler, the final answer (the full generated text) is rendered
without the cursor, saved to memory, and appended to the transcript; if
the invocation raises, nothing further happens.  Returns the new state and
the sequence of strings rendered to the response placeholder. -/
def runChatTurn (s : ChatState) (question : String) (outcome : Except Unit (List String)) :
    ChatState × List String :=
  match outcome with
  | .error _ => (⟨s.messages ++ [Msg.human question], s.memory⟩, [])
  | .ok tokens =>
    let st := runStream tokens
    (⟨(s.messages ++ [Msg.human question]) ++ [Msg.ai st.text],
        memAppend ⟨question, st.text⟩ s.memory⟩,
      st.displays ++ [st.text])

/-- Counterexample to C3 as stated: when the chain invocation raises, the
transcript is NOT left unchanged — the user's question was already
appended as a human message before the invocation. -/
theorem C3_failed_turn_counterexample :
    (runChatTurn ⟨[], emptyMemory⟩ "q" (Except.error ())).1.messages ≠
      (⟨[], emptyMemory⟩ : ChatState).messages := by decide

/-- C3 amended: if the chain invocation raises, the conversation memory is
unchanged from its pre-turn value and the transcript is unchanged except
that the user's question has already been appended as a human message; no
assistant message and no memory update occur. -/
theorem C3_failed_turn_amended (s : ChatState) (question : String) :
    (runChatTurn s question (Except.error ())).1.memory = s.memory ∧
    (runChatTurn s question (Except.error ())).1.messages =
      s.messages ++ [Msg.human question] :=
  ⟨rfl, rfl⟩

/-- Folding string concatenation from any accumulator splits off the
accumulator. -/
theorem foldl_append_str (l : List String) :
    ∀ a : String, l.foldl (fun x y => x ++ y) a = a ++ joinTokens l := by
  induction l with
  | nil => intro a; simp [joinTokens]
  | cons b l ih =>
    intro a
    have h1 : (b :: l).foldl (fun x y => x ++ y) a = l.foldl (fun x y => x ++ y) (a ++ b) := rfl
    have h2 : joinTokens (b :: l) = l.foldl (fun x y => x ++ y) ("" ++ b) := rfl
    rw [h1, ih (a ++ b), h2, ih ("" ++ b)]
    simp [String.append_assoc]

/-- Concatenation of a token list, unfolded one token. -/
theorem joinTokens_cons (tok : String) (rest : List String) :
    joinTokens (tok :: rest) = tok ++ joinTokens rest := by
  have h : joinTokens (tok :: rest) = rest.foldl (fun x y => x ++ y) ("" ++ tok) := rfl
  rw [h, foldl_append_str]
  simp

/-- The handler's accumulated text after a stream is the initial text
followed by the concatenation of the streamed tokens. -/
theorem runStreamFrom_text (tokens : List String) :
    ∀ st : StreamState, (runStreamFrom st tokens).text = st.text ++ joinTokens tokens := by
  induction tokens with
  | nil => intro st; simp [runStreamFrom, joinTokens]
  | cons tok rest ih =>
    intro st
    have h : runStreamFrom st (tok :: rest) = runStreamFrom (onLlmNewToken st tok) rest := rfl
    rw [h, ih, joinTokens_cons]
    simp [onLlmNewToken, String.append_assoc]

/-- The rendering each token should produce: after each token, the text
accumulated so far followed by the cursor. -/
def expectedDisplays (acc : String) : List String → List String
  | [] => []
  | tok :: rest => (acc ++ tok ++ cursor) :: expectedDisplays (acc ++ tok) rest

/-- The handler renders exactly one string per token: the accumulated text
so far plus the cursor. -/
theorem runStreamFrom_displays (tokens : List String) :
    ∀ st : StreamState, (runStreamFrom st tokens).displays =
      st.displays ++ expectedDisplays st.text tokens := by
  induction tokens with
  | nil => intro st; simp [runStreamFrom, expectedDisplays]
  | cons tok rest ih =>
    intro st
    have h : runStreamFrom st (tok :: rest) = runStreamFrom (onLlmNewToken st tok) rest := rfl
    rw [h, ih]
    simp [onLlmNewToken, expectedDisplays]

/-- There is one expected rendering per streamed token. -/
theorem expectedDisplays_length (tokens : List String) :
    ∀ acc : String, (expectedDisplays acc tokens).length = tokens.length := by
  induction tokens with
  | nil => intro acc; rfl
  | cons tok rest ih => intro acc; simp [expectedDisplays, ih]

/-- The i-th expected rendering is the concatenation of the first i+1
tokens (after the initial accumulator) followed by the cursor. -/
theorem expectedDisplays_getElem (tokens : List String) :
    ∀ (acc : String) (i : Nat), i < tokens.length →
      (expectedDisplays acc tokens)[i]? =
        some (acc ++ joinTokens (tokens.take (i + 1)) ++ cursor) := by
  induction tokens with
  | nil => intro acc i h; simp at h
  | cons tok rest ih =>
    intro acc i h
    cases i with
    | zero =>
      simp [expectedDisplays, joinTokens_cons, joinTokens, String.append_assoc]
    | succ j =>
      have hj : j < rest.length := by simpa using h
      simp only [expectedDisplays, List.getElem?_cons_succ]
      rw [ih (acc ++ tok) j hj]
      simp [joinTokens_cons, String.append_assoc]

/-- Counterexample to C9 as stated: after the first streamed token the
display does not hold just the concatenation of the tokens so far — the
handler renders it with a trailing cursor glyph. -/
theorem C9_streaming_counterexample :
    ((runChatTurn ⟨[], emptyMemory⟩ "q" (Except.ok ["hi"])).2)[0]? ≠ some "hi" := by
  decide

/-- C9 amended: the answer saved to memory and appended to the transcript
is exactly the concatenation of all streamed tokens; the display is
updated incrementally — after the i-th token it holds the concatenation of
the first i tokens followed by the cursor glyph, and the final rendering
(after the stream ends) is the full concatenation without the cursor. -/
theorem C9_streaming_amended (s : ChatState) (question : String) (tokens : List String) :
    (runChatTurn s question (Except.ok tokens)).1.memory =
      memAppend ⟨question, joinTokens tokens⟩ s.memory ∧
    (runChatTurn s question (Except.ok tokens)).1.messages =
      s.messages ++ [Msg.human question, Msg.ai (joinTokens tokens)] ∧
    (∀ i : Nat, i < tokens.length →
      ((runChatTurn s question (Except.ok tokens)).2)[i]? =
        some (joinTokens (tokens.take (i + 1)) ++ cursor)) ∧
    ((runChatTurn s question (Except.ok tokens)).2)[tokens.length]? =
      some (joinTokens tokens) := by
  have htext : (runStream tokens).text = joinTokens tokens := by
    rw [runStream, runStreamFrom_text]
    simp
  have hdisp : (runStream tokens).displays = expectedDisplays "" tokens := by
    rw [runStream, runStreamFrom_displays]
    simp
  refine ⟨?_, ?_, ?_, ?_⟩
  · simp only [runChatTurn, htext]
  · simp only [runChatTurn, htext, List.append_assoc, List.singleton_append]
  · intro i hi
    have h1 : (runChatTurn s question (Except.ok tokens)).2 =
        expectedDisplays "" tokens ++ [(runStream tokens).text] := by
      simp only [runChatTurn, hdisp]
    rw [h1, List.getElem?_append]
    rw [if_pos (by rw [expectedDisplays_length]; exact hi)]
    rw [expectedDisplays_getElem tokens "" i hi]
    simp
  · have h1 : (runChatTurn s question (Except.ok tokens)).2 =
        expectedDisplays "" tokens ++ [(runStream tokens).text] := by
      simp only [runChatTurn, hdisp]
    rw [h1, List.getElem?_append_right (by rw [expectedDisplays_length])]
    rw [expectedDisplays_length]
    simp [htext]

/-- Witness for C9 at a concrete two-token stream: after the first token
the display holds that token followed by the cursor. -/
theorem C9_streaming_amended_witness :
    (0 < (["He", "llo"] : List String).length) ∧
    ((runChatTurn ⟨[], emptyMemory⟩ "q" (Except.ok ["He", "llo"])).2)[0]? =
      some (joinTokens (["He", "llo"].take (0 + 1)) ++ cursor) :=
  ⟨by decide, (C9_streaming_amended ⟨[], emptyMemory⟩ "q" ["He", "llo"]).2.2.1 0 (by decide)⟩

/-- An uploaded file as the ingestion surface hands it to `vectorize_text`:
a filename and the extracted plain text content (§6 document ingestion
surface). -/
structure UploadedFile where
  name : String
  content : String
deriving DecidableEq

/-- Python's `str.endswith`: the candidate suffix is a suffix of the
string's characters. -/
def strEndsWith (s suf : String) : Bool := List.isSuffixOf suf.data s.data

/-- Source chunking parameter `chunk_size = 1500`. -/
def chunk_size : Nat := 1500

/-- Source chunking parameter `chunk_overlap = 200`. -/
def chunk_overlap : Nat := 200

/-- Modelled from the spec: the Document Chunker contract (§4.1), whose
implementation (the text splitter) is not part of the repository.  Splits
the character sequence into segments of at most `size` characters, each
consecutive pair overlapping in `size - stride` characters: a chunk of the
first `size` characters is emitted, then splitting continues `stride`
characters further on, until the remaining text fits in one chunk. -/
def chunkText (size stride : Nat) (cs : List Char) : List (List Char) :=
  if cs.length ≤ size ∨ stride = 0 then [cs]
  else cs.take size :: chunkText size stride (cs.drop stride)
termination_by cs.length
decreasing_by simp only [List.length_drop]; omega

/-- Source `text_splitter.create_documents` with the fixed parameters
`chunk_size = 1500`, `chunk_overlap = 200`: chunk the uploaded text. -/
def create_documents (text : String) : List String :=
  (chunkText chunk_size (chunk_size - chunk_overlap) text.data).map fun l => String.mk l

/-- Source `vectorize_text(uploaded_file)`: if a file was uploaded and its
name ends with `txt`, the text is chunked and the chunks are added to the
requesting tenant's vector store; likewise for a name ending with `pdf`
(whose extracted page text the ingestion surface provides, §6); otherwise
nothing happens. -/
def vectorize_text (username : String) (uploaded_file : Option UploadedFile)
    (s : VectorStore) : VectorStore :=
  match uploaded_file with
  | none => s
  | some f =>
    let s1 := if strEndsWith f.name "txt" then
        addDocuments username (create_documents f.content) s else s
    if strEndsWith f.name "pdf" then
      addDocuments username (create_documents f.content) s1 else s1

/-- C10: if no file was uploaded, or the filename ends with neither `txt`
nor `pdf`, then `vectorize_text` is a no-op: the vector store is returned
unchanged and no error is raised. -/
theorem C10_vectorize_noop (username : String) (s : VectorStore)
    (uploaded_file : Option UploadedFile)
    (h : uploaded_file = none ∨ ∃ f, uploaded_file = some f ∧
      strEndsWith f.name "txt" = false ∧ strEndsWith f.name "pdf" = false) :
    vectorize_text username uploaded_file s = s := by
  rcases h with h | ⟨f, hf, ht, hp⟩
  · subst h; rfl
  · subst hf
    simp [vectorize_text, ht, hp]

/-- Witness for C10 at a concrete unsupported file: uploading `report.doc`
leaves the store unchanged. -/
theorem C10_vectorize_noop_witness :
    ((some ⟨"report.doc", "hello"⟩ : Option UploadedFile) = none ∨
      ∃ f, (some ⟨"report.doc", "hello"⟩ : Option UploadedFile) = some f ∧
        strEndsWith f.name "txt" = false ∧ strEndsWith f.name "pdf" = false) ∧
    vectorize_text "alice" (some ⟨"report.doc", "hello"⟩) emptyStore = emptyStore :=
  ⟨Or.inr ⟨⟨"report.doc", "hello"⟩, rfl, by decide, by decide⟩,
    C10_vectorize_noop "alice" emptyStore (some ⟨"report.doc", "hello"⟩)
      (Or.inr ⟨⟨"report.doc", "hello"⟩, rfl, by decide, by decide⟩)⟩

/-- Drop the leading `overlap` characters of every chunk in the list (the
portions duplicated from the previous chunk's tail). -/
def dropOverlaps (overlap : Nat) (l : List (List Char)) : List Char :=
  (l.map (List.drop overlap)).flatten

/-- Concatenate a chunk list back into a text, removing the overlapping
portion at the front of every chunk after the first. -/
def reconstruct (overlap : Nat) : List (List Char) → List Char
  | [] => []
  | c :: rest => c ++ dropOverlaps overlap rest

/-- Two consecutive chunks overlap in `overlap` characters: the first
`overlap` characters of the second chunk are the last `overlap` characters
of the first. -/
def overlapRel (overlap : Nat) (c1 c2 : List Char) : Prop :=
  c2.take overlap = c1.drop (c1.length - overlap)

/-- Unfold `dropOverlaps` over a cons. -/
theorem dropOverlaps_cons (overlap : Nat) (c : List Char) (rest : List (List Char)) :
    dropOverlaps overlap (c :: rest) = c.drop overlap ++ dropOverlaps overlap rest := by
  simp [dropOverlaps]

/-- Unfold `reconstruct` over a cons. -/
theorem reconstruct_cons (overlap : Nat) (c : List Char) (rest : List (List Char)) :
    reconstruct overlap (c :: rest) = c ++ dropOverlaps overlap rest := rfl

/-- The chunker always returns at least one chunk, and the first chunk is
either the whole remaining text or its first `size` characters. -/
theorem chunkText_shape (size stride : Nat) (l : List Char) :
    ∃ c rest, chunkText size stride l = c :: rest ∧ (c = l ∨ c = l.take size) := by
  rw [chunkText]
  split
  · exact ⟨l, [], rfl, Or.inl rfl⟩
  · exact ⟨l.take size, _, rfl, Or.inr rfl⟩

/-- Removing every chunk's leading overlap is the same as removing the
leading `overlap` characters of the reconstructed text, provided the text
is at least `overlap` long. -/
theorem dropOverlaps_chunkText (size overlap : Nat) (hov : overlap < size) (l : List Char)
    (hl : overlap ≤ l.length) :
    dropOverlaps overlap (chunkText size (size - overlap) l) =
      (reconstruct overlap (chunkText size (size - overlap) l)).drop overlap := by
  obtain ⟨c, rest, hc, hshape⟩ := chunkText_shape size (size - overlap) l
  rw [hc, dropOverlaps_cons, reconstruct_cons]
  have hlen : overlap ≤ c.length := by
    rcases hshape with h | h
    · rw [h]; exact hl
    · rw [h, List.length_take]; exact le_min (le_of_lt hov) hl
  rw [List.drop_append_eq_append_drop]
  have h0 : overlap - c.length = 0 := by omega
  rw [h0, List.drop_zero]

/-- Round trip of the chunker: reconstructing the chunk list reproduces the
input text exactly. -/
theorem chunkText_reconstruct (size overlap : Nat) (hov : overlap < size) (cs : List Char) :
    reconstruct overlap (chunkText size (size - overlap) cs) = cs := by
  have main : ∀ n, ∀ cs : List Char, cs.length ≤ n →
      reconstruct overlap (chunkText size (size - overlap) cs) = cs := by
    intro n
    induction n with
    | zero =>
      intro cs hcs
      rw [chunkText, if_pos (Or.inl (by omega))]
      simp [reconstruct, dropOverlaps]
    | succ n ih =>
      intro cs hcs
      by_cases hshort : cs.length ≤ size
      · rw [chunkText, if_pos (Or.inl hshort)]
        simp [reconstruct, dropOverlaps]
      · rw [chunkText, if_neg (by omega)]
        rw [reconstruct_cons]
        have hlen : (cs.drop (size - overlap)).length = cs.length - (size - overlap) :=
          List.length_drop _ _
        rw [dropOverlaps_chunkText size overlap hov (cs.drop (size - overlap)) (by omega)]
        rw [ih (cs.drop (size - overlap)) (by omega)]
        rw [List.drop_drop]
        have hsum : size - overlap + overlap = size := by omega
        rw [hsum, List.take_append_drop]
  exact main cs.length cs (le_refl _)

/-- Consecutive chunks produced by the chunker overlap in exactly the
`overlap` characters at their boundary. -/
theorem chunkText_chain (size overlap : Nat) (hov : overlap < size) (cs : List Char) :
    List.Chain' (overlapRel overlap) (chunkText size (size - overlap) cs) := by
  have main : ∀ n, ∀ cs : List Char, cs.length ≤ n →
      List.Chain' (overlapRel overlap) (chunkText size (size - overlap) cs) := by
    intro n
    induction n with
    | zero =>
      intro cs hcs
      rw [chunkText, if_pos (Or.inl (by omega))]
      simp
    | succ n ih =>
      intro cs hcs
      by_cases hshort : cs.length ≤ size
      · rw [chunkText, if_pos (Or.inl hshort)]
        simp
      · rw [chunkText, if_neg (by omega)]
        rw [List.chain'_cons']
        constructor
        · intro y hy
          obtain ⟨c, rest, hc, hshape⟩ := chunkText_shape size (size - overlap) (cs.drop (size - overlap))
          rw [hc] at hy
          simp only [List.head?_cons, Option.mem_def, Option.some.injEq] at hy
          rw [← hy]
          have htk : (cs.take size).length = size := by
            rw [List.length_take]; omega
          show c.take overlap = (cs.take size).drop ((cs.take size).length - overlap)
          rw [htk]
          rw [List.drop_take]
          have hso : size - (size - overlap) = overlap := by omega
          rw [hso]
          rcases hshape with h | h
          · rw [h]
          · rw [h, List.take_take, min_eq_left (le_of_lt hov)]
        · exact ih (cs.drop (size - overlap)) (by rw [List.length_drop]; omega)
  exact main cs.length cs (le_refl _)

/-- C4: chunking round trip.  For all input text and every valid
`(chunk_size, overlap)` pair with `overlap < chunk_size`, concatenating the
chunks with the overlapping portion at each chunk boundary removed
reproduces the text exactly (no data loss, no reordering), and the only
duplicated text is the `overlap`-character region shared by each pair of
consecutive chunks at their boundary. -/
theorem C4_chunk_roundtrip (size overlap : Nat) (cs : List Char) (hov : overlap < size) :
    reconstruct overlap (chunkText size (size - overlap) cs) = cs ∧
    List.Chain' (overlapRel overlap) (chunkText size (size - overlap) cs) :=
  ⟨chunkText_reconstruct size overlap hov cs, chunkText_chain size overlap hov cs⟩

/-- Witness for C4 at the source's parameters and a concrete text. -/
theorem C4_chunk_roundtrip_witness :
    (200 : Nat) < 1500 ∧
    (reconstruct 200 (chunkText 1500 (1500 - 200) "hello world".data) = "hello world".data ∧
      List.Chain' (overlapRel 200) (chunkText 1500 (1500 - 200) "hello world".data)) :=
  ⟨by decide, C4_chunk_roundtrip 1500 200 "hello world".data (by decide)⟩

/-- C5: a 3,400-character text chunked with `chunk_size = 1500` and
`chunk_overlap = 200` yields exactly 3 chunks, each at most 1500
characters, with consecutive chunks sharing the 200-character overlap at
their boundary. -/
theorem C5_3400_char_scenario (cs : List Char) (h : cs.length = 3400) :
    (chunkText chunk_size (chunk_size - chunk_overlap) cs).length = 3 ∧
    (∀ c ∈ chunkText chunk_size (chunk_size - chunk_overlap) cs, c.length ≤ 1500) ∧
    List.Chain' (overlapRel chunk_overlap) (chunkText chunk_size (chunk_size - chunk_overlap) cs) := by
  have hs : chunk_size = 1500 := rfl
  have ho : chunk_overlap = 200 := rfl
  have hst : chunk_size - chunk_overlap = 1300 := rfl
  have l2 : (cs.drop 1300).length = 2100 := by rw [List.length_drop, h]
  have l3 : ((cs.drop 1300).drop 1300).length = 800 := by rw [List.length_drop, l2]
  have e3 : chunkText 1500 1300 ((cs.drop 1300).drop 1300) = [(cs.drop 1300).drop 1300] := by
    rw [chunkText, if_pos (Or.inl (by omega))]
  have e2 : chunkText 1500 1300 (cs.drop 1300) =
      (cs.drop 1300).take 1500 :: [(cs.drop 1300).drop 1300] := by
    rw [chunkText, if_neg (by omega), e3]
  have e1 : chunkText 1500 1300 cs =
      cs.take 1500 :: ((cs.drop 1300).take 1500 :: [(cs.drop 1300).drop 1300]) := by
    rw [chunkText, if_neg (by omega), e2]
  refine ⟨?_, ?_, ?_⟩
  · rw [hst, hs, e1]; rfl
  · rw [hst, hs, e1]
    intro c hc
    simp only [List.mem_cons, List.not_mem_nil, or_false] at hc
    rcases hc with hc | hc | hc
    · rw [hc, List.length_take]; omega
    · rw [hc, List.length_take]; omega
    · rw [hc]; omega
  · have := chunkText_chain chunk_size chunk_overlap (by rw [hs, ho]; omega) cs
    exact this

/-- Witness for C5 at a concrete 3,400-character text. -/
theorem C5_3400_char_scenario_witness :
    (List.replicate 3400 'a').length = 3400 ∧
    (chunkText chunk_size (chunk_size - chunk_overlap) (List.replicate 3400 'a')).length = 3 ∧
    (∀ c ∈ chunkText chunk_size (chunk_size - chunk_overlap) (List.replicate 3400 'a'),
      c.length ≤ 1500) ∧
    List.Chain' (overlapRel chunk_overlap)
      (chunkText chunk_size (chunk_size - chunk_overlap) (List.replicate 3400 'a')) :=
  ⟨by rw [List.length_replicate],
    (C5_3400_char_scenario (List.replicate 3400 'a') (by rw [List.length_replicate])).1,
    (C5_3400_char_scenario (List.replicate 3400 'a') (by rw [List.length_replicate])).2.1,
    (C5_3400_char_scenario (List.replicate 3400 'a') (by rw [List.length_replicate])).2.2⟩

/-- The opening brace character used for template slots. -/
def lbraceChar : Char := Char.ofNat 123

/-- The closing brace character used for template slots. -/
def rbraceChar : Char := Char.ofNat 125

/-- Python `str.format`-style substitution as `ChatPromptTemplate` applies
it to this template: scan the template; outside a slot, characters are
copied verbatim; a brace opens a slot whose name is read up to the closing
brace and replaced by the corresponding value, inserted verbatim (the
template has no doubled-brace escapes).  `mode` is true inside a slot and
`acc` holds the slot name read so far, reversed. -/
def pyFmt (env : String → String) : Bool → List Char → List Char → List Char
  | false, _, [] => []
  | true, acc, [] => (env (String.mk acc.reverse)).data
  | false, acc, ch :: rest =>
      if ch = lbraceChar then pyFmt env true [] rest
      else ch :: pyFmt env false acc rest
  | true, acc, ch :: rest =>
      if ch = rbraceChar then (env (String.mk acc.reverse)).data ++ pyFmt env false [] rest
      else pyFmt env true (ch :: acc) rest

/-- Format a template string against an environment of slot values. -/
def pyFormat (t : String) (env : String → String) : String :=
  String.mk (pyFmt env false [] t.data)

/-- The prompt template, exactly as in the source (lines 257-272): a fixed
system instruction describing the assistant persona, then the three named
slots `context`, `history` and `question` inside fixed framing text. -/
def template : String := "\n            You\x27re a helpful AI assistent tasked to answer the user\x27s questions.\n            You\x27re friendly and you answer extensively with multiple sentences. You prefer to use bulletpoints to summarize.\n            If you don\x27t know the answer, just say \x27I do not know the answer\x27.\n\n            Use the following context to answer the question:\n            {context}\n\n            Use the previous chat history to answer the question:\n            {history}\n\n            Question:\n            {question}\n\n            Answer in the user\x27s language:\n            "

/-- The fixed system instruction of the template, up to the context slot. -/
def tmplPre : String := "\n            You\x27re a helpful AI assistent tasked to answer the user\x27s questions.\n            You\x27re friendly and you answer extensively with multiple sentences. You prefer to use bulletpoints to summarize.\n            If you don\x27t know the answer, just say \x27I do not know the answer\x27.\n\n            Use the following context to answer the question:\n            "

/-- The fixed template text between the context and history slots. -/
def tmplMid1 : String := "\n\n            Use the previous chat history to answer the question:\n            "

/-- The fixed template text between the history and question slots. -/
def tmplMid2 : String := "\n\n            Question:\n            "

/-- The fixed template text after the question slot. -/
def tmplPost : String := "\n\n            Answer in the user\x27s language:\n            "

set_option maxRecDepth 40000

/-- The template is exactly the four fixed parts with the three named
slots between them. -/
theorem template_decomp :
    template =
      tmplPre ++ ("{context}" ++ (tmplMid1 ++ ("{history}" ++ (tmplMid2 ++
        ("{question}" ++ tmplPost))))) := rfl

/-- The slot environment the chain supplies: retrieved context, rendered
chat history, and the current question. -/
def envOf (context history question : String) : String → String :=
  fun n =>
    if n = "context" then context
    else if n = "history" then history
    else if n = "question" then question
    else ""

/-- The formatted prompt of one turn: the source template with the three
slots substituted. -/
def formatTemplate (context history question : String) : String :=
  pyFormat template (envOf context history question)

/-- Substituting into the template yields exactly the four fixed template
parts interleaved with the three values, each inserted verbatim. -/
theorem formatTemplate_decomp (context history question : String) :
    formatTemplate context history question =
      tmplPre ++ (context ++ (tmplMid1 ++ (history ++ (tmplMid2 ++
        (question ++ tmplPost))))) := rfl

/-- Modelled from the spec: the retrieved chunk texts are concatenated to
fill the context slot (§4.5 Composing, step b). -/
def renderDocs (docs : List String) : String := joinTokens docs

/-- Modelled from the spec: the memory snapshot is rendered as chat history
to fill the history slot (§4.5 Composing, step c). -/
def renderHistory (ts : List MemTurn) : String :=
  joinTokens (ts.map fun t => "Human: " ++ t.question ++ "\nAI: " ++ t.answer ++ "\n")

/-- The prompt submitted to the model for one question turn: the chain maps
the question to the retrieved documents (context), the memory snapshot
(history) and the question itself, then formats the fixed template
(source lines 252-282). -/
def promptOfTurn (score : String → String → Nat) (s : VectorStore) (username : String)
    (m : WindowMemory) (question : String) : String :=
  formatTemplate (renderDocs (similaritySearch score s username question top_k_vectorstore))
    (renderHistory (snapshot m)) question

/-- C7: for every question turn, the prompt submitted to the model is
assembled from exactly four fixed parts of the template — the fixed system
instruction, then the concatenated retrieved chunk texts in the context
slot, the rendered memory snapshot in the history slot, and the current
question in the question slot, each in its place in the fixed template. -/
theorem C7_prompt_assembly (score : String → String → Nat) (s : VectorStore)
    (username : String) (m : WindowMemory) (question : String) :
    promptOfTurn score s username m question =
      tmplPre ++ (renderDocs (similaritySearch score s username question top_k_vectorstore) ++
        (tmplMid1 ++ (renderHistory (snapshot m) ++ (tmplMid2 ++ (question ++ tmplPost))))) :=
  formatTemplate_decomp _ _ _

/-- Counterexample to C8 as stated: slot substitution does not preserve
slot boundaries.  Two different (history, question) pairs — one smuggling
the template's own history/question delimiter inside the history value —
produce the identical final prompt, so the substituted text is neither
escaped nor delimited. -/
theorem C8_injection_counterexample :
    formatTemplate "ctx" ("H" ++ tmplMid2 ++ "X") "Y" =
      formatTemplate "ctx" "H" ("X" ++ tmplMid2 ++ "Y") ∧
    ("H" ++ tmplMid2 ++ "X", "Y") ≠ ("H", "X" ++ tmplMid2 ++ "Y") := by
  constructor
  · rw [formatTemplate_decomp, formatTemplate_decomp]
    simp [String.append_assoc]
  · decide

/-- C8 amended: slot substitution inserts the context, history and question
values verbatim into the fixed template, with no escaping or delimiting;
consequently slot boundaries are not preserved — any text containing a
template delimiter shifts content between the history and question slots
without changing the resulting prompt. -/
theorem C8_substitution_verbatim (context history question extra : String) :
    formatTemplate context (history ++ tmplMid2 ++ extra) question =
      formatTemplate context history (extra ++ tmplMid2 ++ question) := by
  rw [formatTemplate_decomp, formatTemplate_decomp]
  simp [String.append_assoc]

end RagLcel
